import Mathlib

/-!
Verification development for the SearXNG-Crawl4AI pipeline.

The definitions below are a shallow embedding of the repository's core:

* `markdown_to_text` models `WebCrawler.markdown_to_text` (crawler.py, lines
  100-119): the external `markdown` + `BeautifulSoup` rendering stage is
  modelled on the block-level fragment the development exercises
  (blank-line separated blocks, setext underlines, paragraphs contributing
  their lines as text nodes), followed by the source's own line cleanup
  (strip every line, drop blank lines, join with newlines).
* `markdown_to_text_regex` models `WebCrawler.markdown_to_text_regex`
  (crawler.py, lines 67-97): each of the eight `re.sub` substitutions is
  implemented as a left-to-right scanner with Python's leftmost,
  non-overlapping, continue-after-match semantics; `\s` and `str.strip`
  are modelled on the six ASCII whitespace characters.
* `classify`, `runPass`, `reduce` and `crawl_urls` model the two-pass
  fetch-classify-reduce logic of `WebCrawler.crawl_urls` (crawler.py,
  lines 184-320); the rendering engine's two per-pass responses are passed
  in as data and the list of engine invocations is returned as a trace.
* `searchUrls` models the `/search` endpoint logic of main.py, lines
  167-181.
-/

namespace SearCrawl

/-- The six ASCII whitespace characters: model of Python's `\s` character
class and of the character set stripped by `str.strip()`. -/
def isPySpace (c : Char) : Bool :=
  c == ' ' || c == '\t' || c == '\n' || c == '\r' ||
  c == Char.ofNat 11 || c == Char.ofNat 12

/-- Model of Python `str.strip()`: drop whitespace from both ends. -/
def pyStrip (l : List Char) : List Char :=
  ((l.dropWhile isPySpace).reverse.dropWhile isPySpace).reverse

/-- Model of Python `s.split("\n")`: split a character list at every
newline; always returns at least one (possibly empty) line. -/
def splitLinesCh : List Char → List (List Char)
  | [] => [[]]
  | c :: rest =>
    if c == '\n' then [] :: splitLinesCh rest
    else
      match splitLinesCh rest with
      | [] => [[c]]
      | l :: ls => (c :: l) :: ls

/-- Join lines back with newline characters (inverse of `splitLinesCh`). -/
def joinLines : List (List Char) → List Char
  | [] => []
  | [l] => l
  | l :: l₂ :: ls => l ++ '\n' :: joinLines (l₂ :: ls)

/-- A line that is blank for the purpose of block separation: only
whitespace. -/
def isBlankLine (l : List Char) : Bool := l.all isPySpace

/-- Group lines into blank-line separated blocks, discarding the blank
separator lines (model of python-markdown's block splitting). -/
def groupBlocksAux (acc : List (List Char)) : List (List Char) → List (List (List Char))
  | [] => if acc.isEmpty then [] else [acc.reverse]
  | l :: rest =>
    if isBlankLine l then
      if acc.isEmpty then groupBlocksAux [] rest
      else acc.reverse :: groupBlocksAux [] rest
    else groupBlocksAux (l :: acc) rest

/-- Blocks of a line list. -/
def groupBlocks (ls : List (List Char)) : List (List (List Char)) :=
  groupBlocksAux [] ls

/-- A setext-heading underline: a non-empty line made only of `=` and `-`
characters (python-markdown's `^[=-]+$` test on the second line of a
block). -/
def isSetextUnderline (l : List Char) : Bool :=
  !l.isEmpty && l.all (fun c => c == '=' || c == '-')

/-- Text lines extracted from one block.  A line followed by a setext
underline is a heading: its text is kept, the underline is consumed and the
remainder of the block is processed as a fresh block.  Every other line is
a paragraph line kept verbatim (the text nodes BeautifulSoup extracts). -/
def blockText : List (List Char) → List (List Char)
  | [] => []
  | [l] => [l]
  | l₁ :: l₂ :: rest =>
    if isSetextUnderline l₂ then l₁ :: blockText rest
    else l₁ :: blockText (l₂ :: rest)

/-- Character-level core of `markdown_to_text`: block-structured text
extraction followed by the source's cleanup (strip each line, drop blank
lines, join with newlines; crawler.py lines 113-117). -/
def mdCore (cs : List Char) : List Char :=
  let textLines := ((groupBlocks (splitLinesCh cs)).map blockText).flatten
  joinLines ((textLines.map pyStrip).filter (fun l => !l.isEmpty))

/-- Model of `WebCrawler.markdown_to_text` (crawler.py, lines 100-119):
markdown rendering, text extraction and blank-line cleanup. -/
def markdown_to_text (markdown_str : String) : String :=
  (mdCore markdown_str.toList).asString

/-! ### The regex substitutions of `markdown_to_text_regex`

Each `re.sub` of crawler.py lines 78-95 becomes a scanner over the
character list with Python's semantics: scan left to right, replace the
leftmost match, continue scanning right after the replaced text. -/

/-- Model of `re.sub(r'#+\s*', '', text)` (crawler.py line 78): a run of `#`
followed by a run of whitespace is deleted. -/
def stripHashes : List Char → List Char
  | [] => []
  | c :: rest =>
    if c == '#' then
      stripHashes ((rest.dropWhile (· == '#')).dropWhile isPySpace)
    else c :: stripHashes rest
termination_by l => l.length
decreasing_by
  · exact Nat.lt_succ_of_le (Nat.le_trans
      ((List.dropWhile_sublist _).length_le) ((List.dropWhile_sublist _).length_le))
  · exact Nat.lt_succ_self _

/-- Try to match `([^\]]+)\]\([^\)]+\)` against the characters following a
`[`: non-empty label up to the first `]` (which `dropWhile` stops at), then
`(`, then non-empty target up to the first `)`.  Returns the label and the
rest after the closing parenthesis. -/
def matchLink (l : List Char) : Option (List Char × List Char) :=
  let label := l.takeWhile (fun c => !(c == ']'))
  let r₁ := l.dropWhile (fun c => !(c == ']'))
  let r₂ := r₁.drop 1
  if label.isEmpty || r₁.isEmpty || !(r₂.head? == some '(') then none
  else
    let r₃ := r₂.drop 1
    let target := r₃.takeWhile (fun c => !(c == ')'))
    let r₄ := r₃.dropWhile (fun c => !(c == ')'))
    if target.isEmpty || r₄.isEmpty then none
    else some (label, r₄.drop 1)

/-- Model of `re.sub(r'\[([^\]]+)\]\([^\)]+\)', r'\1', text)` (crawler.py line 81):
link syntax is replaced by its label, the replacement is not rescanned. -/
def stripLinks : List Char → List Char
  | [] => []
  | c :: rest =>
    if c == '[' then
      match h : matchLink rest with
      | some (label, r) => label ++ stripLinks r
      | none => c :: stripLinks rest
    else c :: stripLinks rest
termination_by l => l.length
decreasing_by
  · refine Nat.lt_succ_of_le ?_
    simp only [matchLink] at h
    split at h
    · exact absurd h (by simp)
    · split at h
      · exact absurd h (by simp)
      · simp only [Option.some_inj, Prod.mk.injEq] at h
        have h₁ : (rest.dropWhile (fun c => !(c == ']'))).length ≤ rest.length :=
          (List.dropWhile_sublist _).length_le
        have h₃ := ((List.dropWhile_sublist (l :=
          ((rest.dropWhile (fun c => !(c == ']'))).drop 1).drop 1)
          (fun c => !(c == ')'))).length_le)
        have h₄ := congrArg List.length h.2
        simp only [List.length_drop] at h₃ h₄
        omega
  · exact Nat.lt_succ_self _
  · exact Nat.lt_succ_self _

/-- Find the earliest following occurrence of the doubled delimiter `dd`
reachable without crossing a newline (the lazy `(.*?)` of
`(\*\*|__)(.*?)\1` cannot match `\n`).  Returns the middle text and the
rest after the closing delimiter. -/
def findCloser2 (d : Char) : List Char → Option (List Char × List Char)
  | [] => none
  | c :: rest =>
    if c == d && rest.head? == some d then some ([], rest.drop 1)
    else if c == '\n' then none
    else (findCloser2 d rest).map (fun p => (c :: p.1, p.2))

/-- Find the earliest following occurrence of the single delimiter `d`
reachable without crossing a newline (the lazy `(.*?)` of `(\*|_)(.*?)\1`
and of the inline-code pattern).  Returns middle and rest. -/
def findCloser1 (d : Char) : List Char → Option (List Char × List Char)
  | [] => none
  | c :: rest =>
    if c == d then some ([], rest)
    else if c == '\n' then none
    else (findCloser1 d rest).map (fun p => (c :: p.1, p.2))

/-- Model of `re.sub(r'(\*\*|__)(.*?)\1', r'\2', text)` (crawler.py line 84):
a doubled `**` or `__` delimiter pair on one line is removed, keeping the
(lazily matched) middle text. -/
def stripBold : List Char → List Char
  | [] => []
  | [c] => [c]
  | c₁ :: c₂ :: rest =>
    if (c₁ == '*' && c₂ == '*') || (c₁ == '_' && c₂ == '_') then
      match h : findCloser2 c₁ rest with
      | some (mid, after) => mid ++ stripBold after
      | none => c₁ :: stripBold (c₂ :: rest)
    else c₁ :: stripBold (c₂ :: rest)
termination_by l => l.length
decreasing_by
  · have key : ∀ (l mid after : List Char), findCloser2 c₁ l = some (mid, after) →
        after.length ≤ l.length := by
      intro l
      induction l with
      | nil => intro mid after h'; simp [findCloser2] at h'
      | cons c₀ r ih =>
        intro mid after h'
        simp only [findCloser2] at h'
        split at h'
        · simp only [Option.some_inj, Prod.mk.injEq] at h'
          have := congrArg List.length h'.2
          simp only [List.length_drop] at this
          simp only [List.length_cons]
          omega
        · split at h'
          · exact absurd h' (by simp)
          · rw [Option.map_eq_some'] at h'
            obtain ⟨p, hp, hpe⟩ := h'
            have := ih p.1 p.2 (by rw [hp])
            cases hpe
            simp only [List.length_cons]
            omega
    have := key rest mid after h
    simp only [List.length_cons]
    omega
  · simp only [List.length_cons]; omega
  · simp only [List.length_cons]; omega

/-- Model of `re.sub(r'(\*|_)(.*?)\1', r'\2', text)` (crawler.py line 85): a single
`*` or `_` delimiter pair on one line is removed, keeping the middle. -/
def stripItalic : List Char → List Char
  | [] => []
  | c :: rest =>
    if c == '*' || c == '_' then
      match h : findCloser1 c rest with
      | some (mid, after) => mid ++ stripItalic after
      | none => c :: stripItalic rest
    else c :: stripItalic rest
termination_by l => l.length
decreasing_by
  · have key : ∀ (l mid after : List Char), findCloser1 c l = some (mid, after) →
        after.length ≤ l.length := by
      intro l
      induction l with
      | nil => intro mid after h'; simp [findCloser1] at h'
      | cons c₀ r ih =>
        intro mid after h'
        simp only [findCloser1] at h'
        split at h'
        · simp only [Option.some_inj, Prod.mk.injEq] at h'
          cases h'.2
          simp only [List.length_cons]
          omega
        · split at h'
          · exact absurd h' (by simp)
          · rw [Option.map_eq_some'] at h'
            obtain ⟨p, hp, hpe⟩ := h'
            have := ih p.1 p.2 (by rw [hp])
            cases hpe
            simp only [List.length_cons]
            omega
    have := key rest mid after h
    simp only [List.length_cons]
    omega
  · simp only [List.length_cons]; omega
  · simp only [List.length_cons]; omega

/-- Model of `re.sub(r'^[\*\-\+]\s*', '', text, flags=re.MULTILINE)` (crawler.py
line 88): at the start of a line, a bullet character and the greedy run of
whitespace after it are removed.  `atStart` tracks whether the current
position is the string start or directly after a newline of the original
text (Python's MULTILINE `^`). -/
def stripBullets (atStart : Bool) : List Char → List Char
  | [] => []
  | c :: rest =>
    if atStart && (c == '*' || c == '-' || c == '+') then
      stripBullets ((rest.takeWhile isPySpace).getLast? == some '\n')
        (rest.dropWhile isPySpace)
    else c :: stripBullets (c == '\n') rest
termination_by l => l.length
decreasing_by
  · exact Nat.lt_succ_of_le ((List.dropWhile_sublist _).length_le)
  · exact Nat.lt_succ_self _

/-- Find the rest after the earliest following occurrence of ` ``` `
(DOTALL: may cross newlines). -/
def findTripleTick : List Char → Option (List Char)
  | [] => none
  | c :: rest =>
    if c == '`' && rest.head? == some '`' && (rest.drop 1).head? == some '`' then
      some (rest.drop 2)
    else findTripleTick rest

/-- Model of `re.sub(r'`{3}.*?`{3}', '', text, flags=re.DOTALL)` (crawler.py line
91): a fenced code block, delimiters included, is removed as a unit. -/
def stripFenced : List Char → List Char
  | [] => []
  | c :: rest =>
    if c == '`' && rest.head? == some '`' && (rest.drop 1).head? == some '`' then
      match h : findTripleTick (rest.drop 2) with
      | some after => stripFenced after
      | none => c :: stripFenced rest
    else c :: stripFenced rest
termination_by l => l.length
decreasing_by
  · have key : ∀ (l after : List Char), findTripleTick l = some after →
        after.length ≤ l.length := by
      intro l
      induction l with
      | nil => intro after h'; simp [findTripleTick] at h'
      | cons c₀ r ih =>
        intro after h'
        simp only [findTripleTick] at h'
        split at h'
        · simp only [Option.some_inj] at h'
          have := congrArg List.length h'
          simp only [List.length_drop] at this
          simp only [List.length_cons]
          omega
        · have := ih after h'
          simp only [List.length_cons]
          omega
    have := key (rest.drop 2) after h
    simp only [List.length_drop] at this
    simp only [List.length_cons]
    omega
  · simp only [List.length_cons]; omega
  · simp only [List.length_cons]; omega

/-- Model of `re.sub(r'`(.*?)`', r'\1', text)` (crawler.py line 92): an inline-code
backtick pair on one line is removed, keeping the (possibly empty)
middle. -/
def stripInlineCode : List Char → List Char
  | [] => []
  | c :: rest =>
    if c == '`' then
      match h : findCloser1 '`' rest with
      | some (mid, after) => mid ++ stripInlineCode after
      | none => c :: stripInlineCode rest
    else c :: stripInlineCode rest
termination_by l => l.length
decreasing_by
  · have key : ∀ (l mid after : List Char), findCloser1 '`' l = some (mid, after) →
        after.length ≤ l.length := by
      intro l
      induction l with
      | nil => intro mid after h'; simp [findCloser1] at h'
      | cons c₀ r ih =>
        intro mid after h'
        simp only [findCloser1] at h'
        split at h'
        · simp only [Option.some_inj, Prod.mk.injEq] at h'
          cases h'.2
          simp only [List.length_cons]
          omega
        · split at h'
          · exact absurd h' (by simp)
          · rw [Option.map_eq_some'] at h'
            obtain ⟨p, hp, hpe⟩ := h'
            have := ih p.1 p.2 (by rw [hp])
            cases hpe
            simp only [List.length_cons]
            omega
    have := key rest mid after h
    simp only [List.length_cons]
    omega
  · simp only [List.length_cons]; omega
  · simp only [List.length_cons]; omega

/-- Model of `re.sub(r'^>\s*', '', text, flags=re.MULTILINE)` (crawler.py line 95):
at the start of a line, a block-quote marker and the whitespace run after
it are removed. -/
def stripQuotes (atStart : Bool) : List Char → List Char
  | [] => []
  | c :: rest =>
    if atStart && c == '>' then
      stripQuotes ((rest.takeWhile isPySpace).getLast? == some '\n')
        (rest.dropWhile isPySpace)
    else c :: stripQuotes (c == '\n') rest
termination_by l => l.length
decreasing_by
  · exact Nat.lt_succ_of_le ((List.dropWhile_sublist _).length_le)
  · exact Nat.lt_succ_self _

/-- Model of `WebCrawler.markdown_to_text_regex` (crawler.py, lines
67-97): the eight substitutions in source order, then `str.strip()`. -/
def markdown_to_text_regex (markdown_str : String) : String :=
  (pyStrip (stripQuotes true (stripInlineCode (stripFenced
    (stripBullets true (stripItalic (stripBold (stripLinks
      (stripHashes markdown_str.toList))))))))).asString

/-- The Normalizer of the pipeline: `markdown_to_text` followed by
`markdown_to_text_regex`, exactly as applied at crawler.py line 308. -/
def normalize (s : String) : String :=
  markdown_to_text_regex (markdown_to_text s)

/-! ### The two-pass batch fetcher of `WebCrawler.crawl_urls` -/

/-- One raw per-URL outcome of the rendering engine, as inspected by the
per-result branches of `crawl_urls` (crawler.py lines 233-262 and
269-298):
* `nullResult` — the outcome is `None`;
* `missingSuccess` — the outcome lacks a `success` attribute;
* `notSuccessful` — `success` is falsy;
* `missingContent` — `success` is truthy but the outcome lacks a
  `markdown` attribute or `markdown` lacks `fit_markdown`;
* `content s` — `success` is truthy and `markdown.fit_markdown` is the
  string `s` (possibly empty);
* `exn` — inspecting the outcome raises an exception (this also covers a
  non-string `fit_markdown`, whose concatenation with a string raises). -/
inductive RawResult where
  | nullResult
  | missingSuccess
  | notSuccessful
  | missingContent
  | content (fit_markdown : String)
  | exn
deriving DecidableEq, Repr

/-- Disposition of one raw outcome: either a usable content block or the
URL goes to the current pass's fallback list (`retry_urls` on pass 1,
`failed_urls` on pass 2 — the source duplicates the same branch structure
for both passes). -/
inductive Disposition where
  | usable (block : String)
  | retry
deriving DecidableEq, Repr

/-- The per-result classification shared by both passes: only a present
`fit_markdown` string yields a usable block (with `'\n\n'` appended at
crawler.py lines 252 and 288); every other shape of outcome sends the URL
to the fallback list. -/
def classify : RawResult → Disposition
  | .nullResult => .retry
  | .missingSuccess => .retry
  | .notSuccessful => .retry
  | .missingContent => .retry
  | .content s => .usable (s ++ "\n\n")
  | .exn => .retry

/-- Process one pass's URL/outcome pairs in order: usable blocks in input
order to the left, fallback URLs in input order to the right (the two
`for i, result in enumerate(...)` loops of crawler.py). -/
def runPass : List (String × RawResult) → List String × List String
  | [] => ([], [])
  | (u, r) :: rest =>
    let (bs, fs) := runPass rest
    match classify r with
    | .usable b => (b :: bs, fs)
    | .retry => (bs, u :: fs)

/-- Selector for order statements: the usable block contributed by one
URL/outcome pair, if any. -/
def usableBlock (p : String × RawResult) : Option String :=
  match classify p.2 with
  | .usable b => some b
  | .retry => none

/-- Selector for order statements: the URL sent to the current pass's
fallback list by one URL/outcome pair, if any. -/
def fallbackUrl (p : String × RawResult) : Option String :=
  match classify p.2 with
  | .usable _ => none
  | .retry => some p.1

/-- The final aggregated response dictionary (crawler.py lines 310-314). -/
structure AggregatedResult where
  content : String
  success_count : Nat
  failed_urls : List String
deriving DecidableEq, Repr

/-- The terminal error of the fetch pipeline: `HTTPException(500, "所有URL
爬取均失败")` raised when no URL produced a usable block (crawler.py line
302). -/
inductive CrawlError where
  | allFetchesFailed
deriving DecidableEq, Repr

/-- The result reducer (crawler.py lines 300-317): with no usable blocks
the whole call fails; otherwise the blocks are joined with the fixed
separator, normalized, and packed with the success count and the failed
URL list. -/
def reduce (usableBlocks failedUrls : List String) :
    Except CrawlError AggregatedResult :=
  if usableBlocks.isEmpty then .error .allFetchesFailed
  else .ok
    { content := markdown_to_text_regex (markdown_to_text
        (String.intercalate "\n\n==========\n\n" usableBlocks))
    , success_count := usableBlocks.length
    , failed_urls := failedUrls }

/-- Pass-1 partition of the batch: usable blocks and `retry_urls`.  The
rendering engine returns one outcome per input URL in input order (the
`renderMany` interface invariant), so pairing `urls` with the pass-1
response by position models the `urls[i]` indexing of the source. -/
def pass1 (urls : List String) (results1 : List RawResult) :
    List String × List String :=
  runPass (urls.zip results1)

/-- The pass-1 retry candidates (`retry_urls`, crawler.py line 230). -/
def retryUrlsOf (urls : List String) (results1 : List RawResult) : List String :=
  (pass1 urls results1).2

/-- All usable blocks after both passes (`all_results`): pass-1 blocks
first, then pass-2 blocks, each in its pass's input order.  When there are
no retry candidates the second pass is skipped; its zip with the empty
retry list is empty, matching the untouched lists of the source. -/
def allBlocksOf (urls : List String) (results1 results2 : List RawResult) :
    List String :=
  (pass1 urls results1).1 ++ (runPass ((retryUrlsOf urls results1).zip results2)).1

/-- The final `failed_urls` list: fallback URLs of the second pass only. -/
def failedUrlsOf (urls : List String) (results1 results2 : List RawResult) :
    List String :=
  (runPass ((retryUrlsOf urls results1).zip results2)).2

/-- The argument lists of the rendering-engine invocations: the whole
batch on pass 1, and, only when `retry_urls` is non-empty (crawler.py line
265), exactly the retry candidates on pass 2. -/
def callsOf (urls : List String) (results1 : List RawResult) :
    List (List String) :=
  if (retryUrlsOf urls results1).isEmpty then [urls]
  else [urls, retryUrlsOf urls results1]

/-- Model of `WebCrawler.crawl_urls` (crawler.py lines 184-320).  The
rendering engine's per-pass responses are passed in as data (`results1`
for the batch call, `results2` for the retry call); the returned trace
lists the argument list of every rendering-engine invocation performed.
The `instruction` argument is accepted exactly as in the source, which
never reads it. -/
def crawl_urls (urls : List String) (instruction : String)
    (results1 results2 : List RawResult) :
    Except CrawlError AggregatedResult × List (List String) :=
  (reduce (allBlocksOf urls results1 results2)
     (failedUrlsOf urls results1 results2),
   callsOf urls results1)

/-! ### The `/search` endpoint of main.py -/

/-- One record of the search backend's `results` array; only the presence
and value of its `"url"` key matter to the endpoint (main.py line 173). -/
structure SearchRecord where
  url : Option String
deriving DecidableEq, Repr

/-- The typed errors of the `/search` endpoint: `HTTPException(404, "未找
到搜索结果")` and `HTTPException(404, "未找到有效的URL")` (main.py lines
170 and 176). -/
inductive SearchError where
  | noResults
  | noValidUrls
deriving DecidableEq, Repr

/-- URL extraction of main.py line 173: truncate the result records to the
first `limit`, keep the `"url"` value of each record that has one. -/
def extractUrls (results : List SearchRecord) (limit : Nat) : List String :=
  (results.take limit).filterMap (fun r => r.url)

/-- Model of the `/search` endpoint logic after the backend response
(main.py lines 167-181): empty result set fails with `noResults` before
any URL extraction; a drop leaving zero URLs fails with `noValidUrls`.  A
`.ok urls` value is exactly the batch handed to the fetch stage at line
181, so an error value means no fetch call is issued. -/
def searchUrls (results : List SearchRecord) (limit : Nat) :
    Except SearchError (List String) :=
  if results.isEmpty then .error .noResults
  else
    let urls := extractUrls results limit
    if urls.isEmpty then .error .noValidUrls
    else .ok urls

/-! ### Markup-free text, for the Normalizer's fixed points

A string counts as fully stripped when every line is plain prose that no
stage of the Normalizer touches: printable ASCII without the trigger
characters of any markdown construct the pipeline handles or of any regex
substitution, trimmed, non-empty, and not shaped like an ordered-list
item. -/

/-- A character no stage of the Normalizer reacts to: printable ASCII that
is not a heading, emphasis, list, code, quote, link, setext, escape,
raw-HTML/autolink or entity trigger. -/
def plainChar (c : Char) : Bool :=
  0x20 ≤ c.toNat && c.toNat ≤ 0x7e &&
  !(c == '#' || c == '[' || c == '*' || c == '_' || c == '-' || c == '+' ||
    c == '`' || c == '>' || c == '=' || c == '\\' || c == '<' || c == '&')

/-- A line shaped like an ordered-list item: leading digits followed by a
dot. -/
def startsOrderedList (l : List Char) : Bool :=
  !(l.takeWhile Char.isDigit).isEmpty &&
  (l.dropWhile Char.isDigit).head? == some '.'

/-- A fully stripped line: non-empty, made of plain characters, with no
surrounding blanks and not an ordered-list item. -/
def markupFreeLine (l : List Char) : Bool :=
  !l.isEmpty && l.all plainChar &&
  !(l.head? == some ' ') && !(l.getLast? == some ' ') &&
  !startsOrderedList l

/-- A fully stripped string: every line is markup-free. -/
def isStripped (s : String) : Bool :=
  (splitLinesCh s.toList).all markupFreeLine

/-! ## Lemmas -/

theorem asString_data (l : List Char) : (l.asString).data = l := rfl

theorem runPass_fst (ps : List (String × RawResult)) :
    (runPass ps).1 = ps.filterMap usableBlock := by
  induction ps with
  | nil => rfl
  | cons p rest ih =>
    obtain ⟨u, r⟩ := p
    simp only [runPass, List.filterMap_cons, usableBlock]
    cases hc : classify r <;> simp [hc, ih]

theorem runPass_snd (ps : List (String × RawResult)) :
    (runPass ps).2 = ps.filterMap fallbackUrl := by
  induction ps with
  | nil => rfl
  | cons p rest ih =>
    obtain ⟨u, r⟩ := p
    simp only [runPass, List.filterMap_cons, fallbackUrl]
    cases hc : classify r <;> simp [hc, ih]

theorem runPass_length (ps : List (String × RawResult)) :
    (runPass ps).1.length + (runPass ps).2.length = ps.length := by
  induction ps with
  | nil => rfl
  | cons p rest ih =>
    obtain ⟨u, r⟩ := p
    simp only [runPass]
    cases hc : classify r <;> simp [hc] <;> omega

/-! ## Claims -/

/-- C1: when the pass-1 classification leaves a non-empty retry set, the
rendering engine is invoked exactly one more time, with the argument list
exactly equal to the pass-1 retry-candidate subset in original relative
order; and for a non-empty batch whose pass-1 outcomes are all usable, the
engine is invoked exactly once, `failed_urls` is empty and the success
count equals the number of input URLs. -/
theorem crawl_urls_retry_exactly_once (urls : List String) (instr : String)
    (r1 r2 : List RawResult) (hlen : r1.length = urls.length) :
    (retryUrlsOf urls r1 ≠ [] →
      (crawl_urls urls instr r1 r2).2 = [urls, retryUrlsOf urls r1] ∧
      retryUrlsOf urls r1 = (urls.zip r1).filterMap fallbackUrl) ∧
    (urls ≠ [] → (∀ r ∈ r1, ∃ b, classify r = .usable b) →
      (crawl_urls urls instr r1 r2).2 = [urls] ∧
      ∃ res, (crawl_urls urls instr r1 r2).1 = .ok res ∧
        res.success_count = urls.length ∧ res.failed_urls = []) := by
  constructor
  · intro hne
    refine ⟨?_, runPass_snd _⟩
    simp only [crawl_urls, callsOf]
    rw [if_neg (by simpa using hne)]
  · intro hu hall
    have hretry : retryUrlsOf urls r1 = [] := by
      rw [retryUrlsOf, pass1, runPass_snd, List.filterMap_eq_nil_iff]
      intro p hp
      obtain ⟨b, hb⟩ := hall p.2 (List.of_mem_zip hp).2
      simp [fallbackUrl, hb]
    have hblocks : (pass1 urls r1).1.length = urls.length := by
      have := runPass_length (urls.zip r1)
      have hz : (urls.zip r1).length = urls.length := by
        rw [List.length_zip, hlen, Nat.min_self]
      have h2 : (pass1 urls r1).2.length = 0 := by
        simpa [retryUrlsOf] using congrArg List.length hretry
      rw [pass1] at *
      omega
    constructor
    · simp [crawl_urls, callsOf, hretry]
    · have hz : allBlocksOf urls r1 r2 = (pass1 urls r1).1 := by
        simp [allBlocksOf, hretry, runPass]
      have hf : failedUrlsOf urls r1 r2 = [] := by
        simp [failedUrlsOf, hretry, runPass]
      have hnempty : ¬(allBlocksOf urls r1 r2).isEmpty := by
        rw [hz, List.isEmpty_iff]
        intro hcontra
        apply hu
        apply List.length_eq_zero.mp
        have := congrArg List.length hcontra
        simp only [List.length_nil] at this
        omega
      refine ⟨⟨markdown_to_text_regex (markdown_to_text
          (String.intercalate "\n\n==========\n\n" (allBlocksOf urls r1 r2))),
          (allBlocksOf urls r1 r2).length,
          failedUrlsOf urls r1 r2⟩, ?_, ?_, ?_⟩
      · simp only [crawl_urls, reduce, if_neg hnempty]
      · simp only [hz]; exact hblocks
      · exact hf

/-- C2: the fetch performs at most two rendering-engine passes, every
non-usable pass-1 outcome becomes a retry candidate (no pass-1 outcome is
recorded as a terminal failure), and `failed_urls` holds exactly the
pass-2 non-usable outcomes. -/
theorem crawl_urls_two_pass_policy (urls : List String) (instr : String)
    (r1 r2 : List RawResult) :
    (crawl_urls urls instr r1 r2).2.length ≤ 2 ∧
    retryUrlsOf urls r1 = (urls.zip r1).filterMap fallbackUrl ∧
    failedUrlsOf urls r1 r2 =
      ((retryUrlsOf urls r1).zip r2).filterMap fallbackUrl := by
  refine ⟨?_, runPass_snd _, runPass_snd _⟩
  simp only [crawl_urls, callsOf]
  split <;> simp

/-- C3: assuming one outcome per input URL on each pass, the usable blocks
and the failed URLs partition the batch by count: blocks + failures =
inputs, both at the internal report level and on a returned result. -/
theorem crawl_urls_url_partition (urls : List String) (instr : String)
    (r1 r2 : List RawResult) (h1 : r1.length = urls.length)
    (h2 : r2.length = (retryUrlsOf urls r1).length) :
    (allBlocksOf urls r1 r2).length + (failedUrlsOf urls r1 r2).length
        = urls.length ∧
    (∀ res, (crawl_urls urls instr r1 r2).1 = .ok res →
      res.success_count + res.failed_urls.length = urls.length) := by
  have hz1 : (urls.zip r1).length = urls.length := by
    rw [List.length_zip, h1, Nat.min_self]
  have hz2 : ((retryUrlsOf urls r1).zip r2).length = (retryUrlsOf urls r1).length := by
    rw [List.length_zip, h2, Nat.min_self]
  have hp1 := runPass_length (urls.zip r1)
  have hp2 := runPass_length ((retryUrlsOf urls r1).zip r2)
  have hkey : (allBlocksOf urls r1 r2).length + (failedUrlsOf urls r1 r2).length
      = urls.length := by
    simp only [allBlocksOf, failedUrlsOf, List.length_append]
    have hr : (retryUrlsOf urls r1).length = (pass1 urls r1).2.length := rfl
    rw [hz1] at hp1
    rw [hz2, hr] at hp2
    simp only [pass1] at *
    omega
  refine ⟨hkey, ?_⟩
  intro res hres
  simp only [crawl_urls, reduce] at hres
  split at hres
  · exact absurd hres (by simp)
  · simp only [Except.ok.injEq] at hres
    rw [← hres]
    exact hkey

/-- C6: the merged usable-block sequence is all pass-1 usable blocks then
all pass-2 usable blocks, each group in its pass's input order, and the
returned content is determined by that sequence through the fixed
separator join and the Normalizer. -/
theorem crawl_urls_block_order (urls : List String) (instr : String)
    (r1 r2 : List RawResult) :
    allBlocksOf urls r1 r2 =
      (urls.zip r1).filterMap usableBlock ++
      ((retryUrlsOf urls r1).zip r2).filterMap usableBlock ∧
    (∀ res, (crawl_urls urls instr r1 r2).1 = .ok res →
      res.content = SearCrawl.normalize
        (String.intercalate "\n\n==========\n\n" (allBlocksOf urls r1 r2))) := by
  constructor
  · simp only [allBlocksOf, pass1]
    rw [runPass_fst, runPass_fst]
  · intro res hres
    simp only [crawl_urls, reduce] at hres
    split at hres
    · exact absurd hres (by simp)
    · simp only [Except.ok.injEq] at hres
      rw [← hres]
      rfl

/-- Witness for C1 at concrete inputs: a mixed batch `["a", "b"]` whose
second outcome fails triggers exactly one retry call with `["b"]`, and an
all-usable singleton batch is fetched in a single call with full success. -/
theorem crawl_urls_retry_exactly_once_witness :
    ((crawl_urls ["a", "b"] "q" [RawResult.content "x", RawResult.notSuccessful]
        [RawResult.nullResult]).2 =
      [["a", "b"], retryUrlsOf ["a", "b"]
        [RawResult.content "x", RawResult.notSuccessful]] ∧
     retryUrlsOf ["a", "b"] [RawResult.content "x", RawResult.notSuccessful] =
      (["a", "b"].zip [RawResult.content "x", RawResult.notSuccessful]).filterMap
        fallbackUrl) ∧
    ((crawl_urls ["a"] "q" [RawResult.content "x"] []).2 = [["a"]] ∧
     ∃ res, (crawl_urls ["a"] "q" [RawResult.content "x"] []).1 = .ok res ∧
       res.success_count = ["a"].length ∧ res.failed_urls = []) := by
  constructor
  · exact (crawl_urls_retry_exactly_once ["a", "b"] "q"
      [RawResult.content "x", RawResult.notSuccessful] [RawResult.nullResult]
      rfl).1 (by decide)
  · exact (crawl_urls_retry_exactly_once ["a"] "q" [RawResult.content "x"] []
      rfl).2 (by simp)
      (by intro r hr
          simp only [List.mem_singleton] at hr
          exact ⟨"x" ++ "\n\n", by rw [hr]; rfl⟩)

/-- Witness for C3 at a concrete input: two URLs, one usable block and one
twice-failed URL, counts adding up to the batch size. -/
theorem crawl_urls_url_partition_witness :
    (allBlocksOf ["a", "b"] [RawResult.content "x", RawResult.notSuccessful]
        [RawResult.nullResult]).length +
      (failedUrlsOf ["a", "b"] [RawResult.content "x", RawResult.notSuccessful]
        [RawResult.nullResult]).length = ["a", "b"].length :=
  (crawl_urls_url_partition ["a", "b"] "q"
    [RawResult.content "x", RawResult.notSuccessful] [RawResult.nullResult]
    rfl rfl).1

/-- Witness for C6 at a concrete input: the singleton all-usable batch. -/
theorem crawl_urls_block_order_witness :
    allBlocksOf ["a"] [RawResult.content "x"] [] =
      (["a"].zip [RawResult.content "x"]).filterMap usableBlock ++
      ((retryUrlsOf ["a"] [RawResult.content "x"]).zip
        ([] : List RawResult)).filterMap usableBlock ∧
    (AggregatedResult.mk
        (markdown_to_text_regex (markdown_to_text (String.intercalate
          "\n\n==========\n\n" (allBlocksOf ["a"] [RawResult.content "x"] []))))
        (allBlocksOf ["a"] [RawResult.content "x"] []).length
        (failedUrlsOf ["a"] [RawResult.content "x"] [])).content =
      SearCrawl.normalize (String.intercalate "\n\n==========\n\n"
        (allBlocksOf ["a"] [RawResult.content "x"] [])) := by
  refine ⟨(crawl_urls_block_order ["a"] "q" [RawResult.content "x"] []).1, ?_⟩
  exact (crawl_urls_block_order ["a"] "q" [RawResult.content "x"] []).2 _ rfl

/-- C10: the result of `crawl_urls` does not depend on the `instruction`
argument: any two instruction strings yield identical results and traces
for the same batch and engine responses. -/
theorem crawl_urls_instruction_irrelevant (urls : List String)
    (instr₁ instr₂ : String) (r1 r2 : List RawResult) :
    crawl_urls urls instr₁ r1 r2 = crawl_urls urls instr₂ r1 r2 := rfl

/-- Counterexample for C4: an outcome whose success indicator is true and
whose content field is present but the empty string is classified
`usable` (crawler.py line 246 only checks attribute presence, not
emptiness), not `retry` — refuting the claim that an empty content string
is treated like a missing one. -/
theorem classify_empty_content_not_retry :
    classify (RawResult.content "") = Disposition.usable "\n\n" ∧
    classify (RawResult.content "") ≠ Disposition.retry := by
  exact ⟨rfl, by simp [classify]⟩

/-- C4 (amended): a success outcome with a missing content field is a
retry candidate, but a success outcome with a present content string —
empty or not — is classified usable with the block `content ++ "\n\n"`:
empty-but-present content is not treated like missing content. -/
theorem classify_content_presence (s : String) :
    classify RawResult.missingContent = Disposition.retry ∧
    classify (RawResult.content s) = Disposition.usable (s ++ "\n\n") :=
  ⟨rfl, rfl⟩

/-- C5: the reducer fails with the all-fetches-failed error on an empty
block sequence regardless of the failed list, and otherwise returns the
normalized separator-join of the blocks with the block count and the
failed list. -/
theorem reduce_spec (blocks failed : List String) :
    (blocks = [] → reduce blocks failed = .error .allFetchesFailed) ∧
    (blocks ≠ [] → reduce blocks failed = .ok
      ⟨SearCrawl.normalize (String.intercalate "\n\n==========\n\n" blocks),
        blocks.length, failed⟩) := by
  constructor
  · intro h
    simp [reduce, h]
  · intro h
    simp only [reduce, List.isEmpty_iff, if_neg h]
    rfl

/-- Witness for C5 at concrete inputs: the empty and a singleton block
sequence, both with a non-empty failed list. -/
theorem reduce_spec_witness :
    reduce [] ["u"] = .error .allFetchesFailed ∧
    reduce ["A"] ["u"] = .ok
      ⟨SearCrawl.normalize (String.intercalate "\n\n==========\n\n" ["A"]),
        (["A"] : List String).length, ["u"]⟩ :=
  ⟨(reduce_spec [] ["u"]).1 rfl, (reduce_spec ["A"] ["u"]).2 (by simp)⟩

/-- Evaluation of the Normalizer on the joined pair of blocks `"A"`,
`"B"`: the separator becomes a standalone paragraph between the two
blocks, survives text extraction as its own line, and no regex
substitution touches `=` characters. -/
theorem normalize_sep_eval :
    SearCrawl.normalize "A\n\n==========\n\nB" = "A\n==========\nB" := by
  simp +decide [SearCrawl.normalize, markdown_to_text, mdCore, splitLinesCh,
    groupBlocks, groupBlocksAux, blockText, isBlankLine, isSetextUnderline,
    joinLines, markdown_to_text_regex, stripHashes, stripLinks, stripBold,
    stripItalic, stripBullets, stripFenced, stripInlineCode, stripQuotes,
    findCloser1, findCloser2, findTripleTick, matchLink, isPySpace, pyStrip,
    asString_data]

/-- Counterexample for C7: for `usableBlocks = ["A", "B"]` the reduced
content is `"A\n==========\nB"` — the separator text survives
normalization and its `=` characters are retained in the output. -/
theorem reduce_separator_retained :
    (reduce ["A", "B"] []).map AggregatedResult.content =
      Except.ok "A\n==========\nB" ∧
    "A\n==========\nB".toList.contains '=' = true := by
  constructor
  · show Except.ok (markdown_to_text_regex (markdown_to_text
      (String.intercalate "\n\n==========\n\n" ["A", "B"]))) =
      Except.ok "A\n==========\nB"
    have h : String.intercalate "\n\n==========\n\n" ["A", "B"] =
        "A\n\n==========\n\nB" := by decide
    rw [h]
    exact congrArg Except.ok normalize_sep_eval
  · decide

/-- C7 (amended): for `usableBlocks = ["A", "B"]` the reducer returns
content `"A\n==========\nB"`: block `"A"` before block `"B"` as claimed,
but with the separator surviving normalization as its own `==========`
line, since a standalone `=`-run paragraph is not a heading or emphasis
marker and no stripping rule removes `=` characters. -/
theorem reduce_separator_line_value :
    reduce ["A", "B"] [] = .ok ⟨"A\n==========\nB", 2, []⟩ := by
  have h1 : reduce ["A", "B"] [] = .ok
      ⟨SearCrawl.normalize (String.intercalate "\n\n==========\n\n" ["A", "B"]),
        (["A", "B"] : List String).length, []⟩ :=
    (reduce_spec ["A", "B"] []).2 (by simp)
  rw [h1]
  have h : String.intercalate "\n\n==========\n\n" ["A", "B"] =
      "A\n\n==========\n\nB" := by decide
  rw [h, normalize_sep_eval]
  rfl

/-- C8: the search endpoint fails with the no-results error on an empty
result set (so no fetch call is issued — a fetch happens exactly on an
`.ok` value), silently drops records lacking a URL and fails with the
no-valid-urls error when nothing remains, and otherwise hands the fetch
stage the URLs of the first `limit` records — at most `limit` of them. -/
theorem search_endpoint_spec (results : List SearchRecord) (limit : Nat) :
    (results = [] → searchUrls results limit = .error .noResults) ∧
    (results ≠ [] → extractUrls results limit = [] →
      searchUrls results limit = .error .noValidUrls) ∧
    (∀ urls, searchUrls results limit = .ok urls →
      urls = (results.take limit).filterMap (fun r => r.url) ∧
      urls.length ≤ limit) := by
  refine ⟨?_, ?_, ?_⟩
  · intro h
    simp [searchUrls, h]
  · intro h1 h2
    simp [searchUrls, h1, h2]
  · intro urls h
    simp only [searchUrls] at h
    split at h
    · exact absurd h (by simp)
    · split at h
      · exact absurd h (by simp)
      · simp only [Except.ok.injEq] at h
        subst h
        refine ⟨rfl, ?_⟩
        exact Nat.le_trans (List.length_filterMap_le _ _) (List.length_take_le _ _)

/-- Witness for C8 at concrete inputs: empty result set, a set whose only
record lacks a URL, and a two-record set truncated to `limit = 1`. -/
theorem search_endpoint_spec_witness :
    searchUrls [] 3 = .error .noResults ∧
    searchUrls [⟨none⟩] 3 = .error .noValidUrls ∧
    (extractUrls [⟨some "u"⟩, ⟨some "v"⟩] 1 =
        (([⟨some "u"⟩, ⟨some "v"⟩] : List SearchRecord).take 1).filterMap
          (fun r => r.url) ∧
      (extractUrls [⟨some "u"⟩, ⟨some "v"⟩] 1).length ≤ 1) := by
  refine ⟨(search_endpoint_spec [] 3).1 rfl, ?_, ?_⟩
  · exact (search_endpoint_spec [⟨none⟩] 3).2.1 (by simp) (by decide)
  · exact (search_endpoint_spec [⟨some "u"⟩, ⟨some "v"⟩] 1).2.2
      (extractUrls [⟨some "u"⟩, ⟨some "v"⟩] 1) rfl

/-! ### The Normalizer is the identity on fully stripped text -/

theorem splitLinesCh_ne_nil (cs : List Char) : splitLinesCh cs ≠ [] := by
  induction cs with
  | nil => simp [splitLinesCh]
  | cons c rest ih =>
    simp only [splitLinesCh]
    split
    · simp
    · rcases h : splitLinesCh rest with _ | ⟨l, ls⟩
      · exact absurd h ih
      · simp

theorem joinLines_splitLinesCh (cs : List Char) :
    joinLines (splitLinesCh cs) = cs := by
  induction cs with
  | nil => rfl
  | cons c rest ih =>
    simp only [splitLinesCh]
    split
    · rename_i hc
      rcases h : splitLinesCh rest with _ | ⟨l, ls⟩
      · exact absurd h (splitLinesCh_ne_nil rest)
      · rw [h] at ih
        simp only [joinLines, List.nil_append]
        rw [ih]
        simp only [beq_iff_eq] at hc
        rw [hc]
    · rcases h : splitLinesCh rest with _ | ⟨l, ls⟩
      · exact absurd h (splitLinesCh_ne_nil rest)
      · rw [h] at ih
        rcases ls with _ | ⟨l₂, ls'⟩
        · simp only [joinLines] at ih ⊢
          rw [ih]
        · simp only [joinLines, List.cons_append] at ih ⊢
          rw [ih]

theorem mem_joinLines {c : Char} :
    ∀ {lines : List (List Char)}, c ∈ joinLines lines →
      c = '\n' ∨ ∃ l ∈ lines, c ∈ l := by
  intro lines
  induction lines with
  | nil => intro h; simp [joinLines] at h
  | cons l rest ih =>
    intro h
    rcases rest with _ | ⟨l₂, ls⟩
    · exact Or.inr ⟨l, by simp, by simpa [joinLines] using h⟩
    · simp only [joinLines, List.mem_append, List.mem_cons] at h
      rcases h with h | h | h
      · exact Or.inr ⟨l, by simp, h⟩
      · exact Or.inl h
      · rcases ih h with h' | ⟨l', hl', hc'⟩
        · exact Or.inl h'
        · exact Or.inr ⟨l', by simp [hl'], hc'⟩

theorem plainChar_parts {c : Char} (hp : plainChar c = true) :
    0x20 ≤ c.toNat ∧ c.toNat ≤ 0x7e ∧ c ≠ '#' ∧ c ≠ '[' ∧ c ≠ '*' ∧
    c ≠ '_' ∧ c ≠ '-' ∧ c ≠ '+' ∧ c ≠ '`' ∧ c ≠ '>' ∧ c ≠ '=' ∧
    c ≠ '\\' ∧ c ≠ '<' ∧ c ≠ '&' := by
  simp only [plainChar, Bool.and_eq_true, decide_eq_true_eq,
    Bool.not_eq_eq_eq_not, Bool.not_true, Bool.or_eq_false_iff,
    beq_eq_false_iff_ne, ne_eq] at hp
  tauto

theorem markupFree_parts {l : List Char} (hm : markupFreeLine l = true) :
    l.isEmpty = false ∧ (∀ c ∈ l, plainChar c = true) ∧
    l.head? ≠ some ' ' ∧ l.getLast? ≠ some ' ' ∧
    startsOrderedList l = false := by
  simp only [markupFreeLine, Bool.and_eq_true, Bool.not_eq_eq_eq_not,
    Bool.not_true, List.all_eq_true, beq_eq_false_iff_ne, ne_eq] at hm
  tauto

theorem plainChar_not_space {c : Char} (hp : plainChar c = true)
    (hps : isPySpace c = true) : c = ' ' := by
  simp only [isPySpace, Bool.or_eq_true, beq_iff_eq] at hps
  rcases hps with ((((h | h) | h) | h) | h) | h <;> subst h <;>
    first
      | rfl
      | exact absurd hp (by decide)

theorem markupFree_head_not_space {l : List Char} {c : Char}
    (hm : markupFreeLine l = true) (hc : l.head? = some c) :
    isPySpace c = false := by
  obtain ⟨hne, hplain, hhead, hlast, holist⟩ := markupFree_parts hm
  by_contra hps
  have hps' : isPySpace c = true := by
    cases h : isPySpace c
    · exact absurd h hps
    · rfl
  have hcmem : c ∈ l := by
    rcases l with _ | ⟨a, t⟩
    · simp at hc
    · simp only [List.head?_cons, Option.some_inj] at hc
      rw [← hc]; simp
  have := plainChar_not_space (hplain c hcmem) hps'
  subst this
  exact hhead hc

theorem markupFree_getLast_not_space {l : List Char} {c : Char}
    (hm : markupFreeLine l = true) (hc : l.getLast? = some c) :
    isPySpace c = false := by
  obtain ⟨hne, hplain, hhead, hlast, holist⟩ := markupFree_parts hm
  by_contra hps
  have hps' : isPySpace c = true := by
    cases h : isPySpace c
    · exact absurd h hps
    · rfl
  have hcmem : c ∈ l := by
    have hrev : l.reverse.head? = some c := by rw [List.head?_reverse]; exact hc
    have : c ∈ l.reverse := by
      rcases hr : l.reverse with _ | ⟨a, t⟩
      · rw [hr] at hrev; simp at hrev
      · rw [hr] at hrev
        simp only [List.head?_cons, Option.some_inj] at hrev
        rw [← hrev]; simp
    exact List.mem_reverse.mp this
  have := plainChar_not_space (hplain c hcmem) hps'
  subst this
  exact hlast hc

theorem markupFree_not_blank {l : List Char} (hm : markupFreeLine l = true) :
    isBlankLine l = false := by
  rcases l with _ | ⟨c, t⟩
  · exact absurd hm (by decide)
  · have := markupFree_head_not_space hm (c := c) rfl
    simp only [isBlankLine, List.all_cons, Bool.and_eq_false_iff]
    exact Or.inl this

theorem markupFree_not_setext {l : List Char} (hm : markupFreeLine l = true) :
    isSetextUnderline l = false := by
  rcases l with _ | ⟨c, t⟩
  · rfl
  · obtain ⟨hne, hplain, hhead, hlast, holist⟩ := markupFree_parts hm
    obtain ⟨h1, h2, h3, h4, h5, h6, hdash, h8, h9, h10, heq, h12, h13, h14⟩ :=
      plainChar_parts (hplain c (by simp))
    simp only [isSetextUnderline, List.all_cons, List.isEmpty_cons,
      Bool.not_false, Bool.true_and, Bool.and_eq_false_iff]
    left
    simp [heq, hdash]

theorem groupBlocksAux_nonblank (ls : List (List Char)) :
    ∀ acc, (∀ l ∈ ls, isBlankLine l = false) →
      groupBlocksAux acc ls =
        if acc.isEmpty && ls.isEmpty then [] else [acc.reverse ++ ls] := by
  induction ls with
  | nil =>
    intro acc _
    simp only [groupBlocksAux, List.isEmpty_nil, Bool.and_true]
    split <;> simp_all
  | cons l rest ih =>
    intro acc hnb
    simp only [groupBlocksAux]
    rw [if_neg (by simp [hnb l (by simp)])]
    rw [ih (l :: acc) (fun x hx => hnb x (by simp [hx]))]
    simp

theorem groupBlocks_nonblank {ls : List (List Char)} (hne : ls ≠ [])
    (hnb : ∀ l ∈ ls, isBlankLine l = false) : groupBlocks ls = [ls] := by
  rw [groupBlocks, groupBlocksAux_nonblank ls [] hnb]
  simp [hne]

theorem blockText_nonsetext {ls : List (List Char)}
    (hns : ∀ l ∈ ls, isSetextUnderline l = false) : blockText ls = ls := by
  induction ls with
  | nil => rfl
  | cons l rest ih =>
    rcases rest with _ | ⟨l₂, ls'⟩
    · rfl
    · simp only [blockText]
      rw [if_neg (by simp [hns l₂ (by simp)])]
      rw [ih (fun x hx => hns x (by simp [hx]))]

theorem dropWhile_eq_self_of_head {l : List Char} {p : Char → Bool}
    (h : ∀ c, l.head? = some c → p c = false) : l.dropWhile p = l := by
  rcases l with _ | ⟨c, t⟩
  · rfl
  · rw [List.dropWhile_cons, if_neg (by simp [h c rfl])]

theorem pyStrip_markupFree {l : List Char} (hm : markupFreeLine l = true) :
    pyStrip l = l := by
  rw [pyStrip]
  rw [dropWhile_eq_self_of_head
    (fun c hc => markupFree_head_not_space hm hc)]
  rw [dropWhile_eq_self_of_head
    (fun c hc => markupFree_getLast_not_space hm (by rwa [← List.head?_reverse]))]
  exact List.reverse_reverse l

theorem mdCore_stripped {cs : List Char}
    (hall : ∀ l ∈ splitLinesCh cs, markupFreeLine l = true) :
    mdCore cs = cs := by
  have hnb : ∀ l ∈ splitLinesCh cs, isBlankLine l = false :=
    fun l hl => markupFree_not_blank (hall l hl)
  have hns : ∀ l ∈ splitLinesCh cs, isSetextUnderline l = false :=
    fun l hl => markupFree_not_setext (hall l hl)
  simp only [mdCore]
  rw [groupBlocks_nonblank (splitLinesCh_ne_nil cs) hnb]
  simp only [List.map_cons, List.map_nil, List.flatten_cons, List.flatten_nil,
    List.append_nil]
  rw [blockText_nonsetext hns]
  have hmap : (splitLinesCh cs).map pyStrip = splitLinesCh cs := by
    have := List.map_congr_left (f := pyStrip) (g := id)
      (fun l hl => pyStrip_markupFree (hall l hl))
    rw [this, List.map_id]
  rw [hmap]
  have hfil : (splitLinesCh cs).filter (fun l => !l.isEmpty) = splitLinesCh cs := by
    apply List.filter_eq_self.mpr
    intro l hl
    have := hall l hl
    simp only [markupFreeLine, Bool.and_eq_true] at this
    simp [this.1.1.1]
  rw [hfil, joinLines_splitLinesCh]

theorem markupFree_ne_nil {l : List Char} (hm : markupFreeLine l = true) :
    l ≠ [] := by
  intro hc
  rw [hc] at hm
  exact absurd hm (by decide)

theorem tame_no {c : Char} (hc : c = '\n' ∨ plainChar c = true) :
    c ≠ '#' ∧ c ≠ '[' ∧ c ≠ '*' ∧ c ≠ '_' ∧ c ≠ '-' ∧ c ≠ '+' ∧
    c ≠ '`' ∧ c ≠ '>' := by
  rcases hc with h | h
  · subst h; decide
  · have := plainChar_parts h
    tauto

theorem stripHashes_tame (cs : List Char)
    (h : ∀ c ∈ cs, c = '\n' ∨ plainChar c = true) : stripHashes cs = cs := by
  induction cs with
  | nil => simp [stripHashes]
  | cons c rest ih =>
    obtain ⟨hH, _, _, _, _, _, _, _⟩ := tame_no (h c (by simp))
    simp only [stripHashes]
    rw [if_neg (by simp [hH])]
    rw [ih (fun x hx => h x (by simp [hx]))]

theorem stripLinks_tame (cs : List Char)
    (h : ∀ c ∈ cs, c = '\n' ∨ plainChar c = true) : stripLinks cs = cs := by
  induction cs with
  | nil => simp [stripLinks]
  | cons c rest ih =>
    obtain ⟨_, hLb, _, _, _, _, _, _⟩ := tame_no (h c (by simp))
    simp only [stripLinks]
    rw [if_neg (by simp [hLb])]
    rw [ih (fun x hx => h x (by simp [hx]))]

theorem stripBold_tame (cs : List Char)
    (h : ∀ c ∈ cs, c = '\n' ∨ plainChar c = true) : stripBold cs = cs := by
  induction cs with
  | nil => simp [stripBold]
  | cons c tail ih =>
    rcases tail with _ | ⟨c₂, rest⟩
    · simp [stripBold]
    · obtain ⟨_, _, hSt, hUn, _, _, _, _⟩ := tame_no (h c (by simp))
      simp only [stripBold]
      rw [if_neg (by simp [hSt, hUn])]
      rw [ih (fun x hx => h x (by simp [hx]))]

theorem stripItalic_tame (cs : List Char)
    (h : ∀ c ∈ cs, c = '\n' ∨ plainChar c = true) : stripItalic cs = cs := by
  induction cs with
  | nil => simp [stripItalic]
  | cons c rest ih =>
    obtain ⟨_, _, hSt, hUn, _, _, _, _⟩ := tame_no (h c (by simp))
    simp only [stripItalic]
    rw [if_neg (by simp [hSt, hUn])]
    rw [ih (fun x hx => h x (by simp [hx]))]

theorem stripBullets_tame (cs : List Char)
    (h : ∀ c ∈ cs, c = '\n' ∨ plainChar c = true) :
    ∀ b, stripBullets b cs = cs := by
  induction cs with
  | nil => intro b; simp [stripBullets]
  | cons c rest ih =>
    intro b
    obtain ⟨_, _, hSt, _, hDa, hPl, _, _⟩ := tame_no (h c (by simp))
    simp only [stripBullets]
    rw [if_neg (by simp [hSt, hDa, hPl])]
    rw [ih (fun x hx => h x (by simp [hx]))]

theorem stripFenced_tame (cs : List Char)
    (h : ∀ c ∈ cs, c = '\n' ∨ plainChar c = true) : stripFenced cs = cs := by
  induction cs with
  | nil => simp [stripFenced]
  | cons c rest ih =>
    obtain ⟨_, _, _, _, _, _, hBt, _⟩ := tame_no (h c (by simp))
    simp only [stripFenced]
    rw [if_neg (by simp [hBt])]
    rw [ih (fun x hx => h x (by simp [hx]))]

theorem stripInlineCode_tame (cs : List Char)
    (h : ∀ c ∈ cs, c = '\n' ∨ plainChar c = true) : stripInlineCode cs = cs := by
  induction cs with
  | nil => simp [stripInlineCode]
  | cons c rest ih =>
    obtain ⟨_, _, _, _, _, _, hBt, _⟩ := tame_no (h c (by simp))
    simp only [stripInlineCode]
    rw [if_neg (by simp [hBt])]
    rw [ih (fun x hx => h x (by simp [hx]))]

theorem stripQuotes_tame (cs : List Char)
    (h : ∀ c ∈ cs, c = '\n' ∨ plainChar c = true) :
    ∀ b, stripQuotes b cs = cs := by
  induction cs with
  | nil => intro b; simp [stripQuotes]
  | cons c rest ih =>
    intro b
    obtain ⟨_, _, _, _, _, _, _, hGt⟩ := tame_no (h c (by simp))
    simp only [stripQuotes]
    rw [if_neg (by simp [hGt])]
    rw [ih (fun x hx => h x (by simp [hx]))]

theorem pyStrip_of_ends {cs : List Char}
    (hh : ∀ c, cs.head? = some c → isPySpace c = false)
    (hl : ∀ c, cs.getLast? = some c → isPySpace c = false) :
    pyStrip cs = cs := by
  rw [pyStrip, dropWhile_eq_self_of_head hh,
    dropWhile_eq_self_of_head (fun c hc =>
      hl c (by rwa [List.head?_reverse] at hc)),
    List.reverse_reverse]

theorem joinLines_ne_nil {l : List Char} {ls : List (List Char)}
    (h : l ≠ []) : joinLines (l :: ls) ≠ [] := by
  rcases ls with _ | ⟨l₂, ls'⟩
  · simpa [joinLines]
  · simp [joinLines]

theorem joinLines_getLast {lines : List (List Char)}
    (hne : ∀ l ∈ lines, l ≠ []) :
    ∀ llast, lines.getLast? = some llast →
      (joinLines lines).getLast? = llast.getLast? := by
  induction lines with
  | nil => intro llast h; simp at h
  | cons l rest ih =>
    intro llast h
    rcases rest with _ | ⟨l₂, ls⟩
    · simp only [List.getLast?_singleton, Option.some_inj] at h
      subst h
      simp [joinLines]
    · rw [List.getLast?_cons_cons] at h
      have hres := ih (fun x hx => hne x (by simp [hx])) llast h
      have hjne : joinLines (l₂ :: ls) ≠ [] :=
        joinLines_ne_nil (hne l₂ (by simp))
      obtain ⟨x, X, hX⟩ := List.exists_cons_of_ne_nil hjne
      simp only [joinLines]
      rw [List.getLast?_append_of_ne_nil _ (by simp)]
      rw [hX, List.getLast?_cons_cons, ← hX, hres]

theorem normalize_fixed {y : String} (h : isStripped y = true) :
    SearCrawl.normalize y = y := by
  have hall : ∀ l ∈ splitLinesCh y.toList, markupFreeLine l = true := by
    simpa [isStripped, List.all_eq_true] using h
  have hjoin : joinLines (splitLinesCh y.toList) = y.toList :=
    joinLines_splitLinesCh _
  have htame : ∀ c ∈ y.toList, c = '\n' ∨ plainChar c = true := by
    intro c hc
    rw [← hjoin] at hc
    rcases mem_joinLines hc with h' | ⟨l, hl, hcl⟩
    · exact Or.inl h'
    · exact Or.inr ((markupFree_parts (hall l hl)).2.1 c hcl)
  have hhead : ∀ c, y.toList.head? = some c → isPySpace c = false := by
    intro c hc
    rcases hL : splitLinesCh y.toList with _ | ⟨l₀, rest⟩
    · exact absurd hL (splitLinesCh_ne_nil _)
    · have hm0 : markupFreeLine l₀ = true := hall l₀ (by rw [hL]; simp)
      have hny : (joinLines (l₀ :: rest)).head? = l₀.head? := by
        rcases rest with _ | ⟨l₂, ls⟩
        · simp [joinLines]
        · simp only [joinLines]
          exact List.head?_append_of_ne_nil _ (markupFree_ne_nil hm0)
      rw [← hjoin, hL, hny] at hc
      exact markupFree_head_not_space hm0 hc
  have hlast : ∀ c, y.toList.getLast? = some c → isPySpace c = false := by
    intro c hc
    rcases hL : splitLinesCh y.toList with _ | ⟨l₀, rest⟩
    · exact absurd hL (splitLinesCh_ne_nil _)
    · have hne : ∀ l ∈ (l₀ :: rest), l ≠ [] := fun l hl =>
        markupFree_ne_nil (hall l (hL ▸ hl))
      have hgl : (l₀ :: rest).getLast? =
          some ((l₀ :: rest).getLast (by simp)) :=
        List.getLast?_eq_getLast _ _
      set llast := (l₀ :: rest).getLast (by simp) with hld
      have hmem : llast ∈ (l₀ :: rest) := List.getLast_mem _
      have hml : markupFreeLine llast = true := hall llast (hL ▸ hmem)
      have := joinLines_getLast hne llast hgl
      rw [← hjoin, hL, this] at hc
      exact markupFree_getLast_not_space hml hc
  have hmd : markdown_to_text y = (y.toList).asString := by
    rw [markdown_to_text, mdCore_stripped hall]
  rw [SearCrawl.normalize, hmd, markdown_to_text_regex]
  have htl : ((y.toList).asString).toList = y.toList := rfl
  rw [htl]
  rw [stripHashes_tame _ htame, stripLinks_tame _ htame, stripBold_tame _ htame,
    stripItalic_tame _ htame, stripBullets_tame _ htame true,
    stripFenced_tame _ htame, stripInlineCode_tame _ htame,
    stripQuotes_tame _ htame true, pyStrip_of_ends hhead hlast]
  rfl

/-- C9: the Normalizer is idempotent on its own fixed points — for an
input whose single normalization pass yields fully stripped text (no
residual markup tokens), a second pass changes nothing. -/
theorem normalize_idempotent_on_stripped (x : String)
    (h : isStripped (SearCrawl.normalize x) = true) :
    SearCrawl.normalize (SearCrawl.normalize x) = SearCrawl.normalize x :=
  normalize_fixed h

/-- Witness for C9 at a concrete input: plain two-line prose normalizes to
itself (a stripped fixed point), so the second pass is the identity. -/
theorem normalize_idempotent_witness :
    isStripped (SearCrawl.normalize "hello world\nfoo") = true ∧
    SearCrawl.normalize (SearCrawl.normalize "hello world\nfoo") =
      SearCrawl.normalize "hello world\nfoo" := by
  have he : SearCrawl.normalize "hello world\nfoo" = "hello world\nfoo" := by
    simp +decide [SearCrawl.normalize, markdown_to_text, mdCore, splitLinesCh,
      groupBlocks, groupBlocksAux, blockText, isBlankLine, isSetextUnderline,
      joinLines, markdown_to_text_regex, stripHashes, stripLinks, stripBold,
      stripItalic, stripBullets, stripFenced, stripInlineCode, stripQuotes,
      findCloser1, findCloser2, findTripleTick, matchLink, isPySpace, pyStrip,
      asString_data]
  have hs : isStripped (SearCrawl.normalize "hello world\nfoo") = true := by
    rw [he]; decide
  exact ⟨hs, normalize_idempotent_on_stripped _ hs⟩

end SearCrawl
